import Mathlib

/-!
# Worker pool of `TestController/pkg/workerpool/workerpool.go`

A shallow embedding of the `worker` type and of its methods
(`processNextItem`, `runWorker`, `StartWorkerPool`, `SubmitJob`,
`SubmitJobAfter`, `SetWorkerFunc`, `NewDefaultWorkerPool`).

The rate limiting queue is an interface value in the Go source
(`workqueue.TypedRateLimitingInterface`); it is embedded as a record of
functions over an explicit queue state, so every result about
`processNextItem` holds for every implementation of the interface.  Each call
made on the queue, on the handler and on the logger is recorded, in program
order, in a list of events.
-/

namespace Workerpool

/-! ## Data model -/

/-- Go `time.Duration`: a signed count of nanoseconds. -/
abbrev Duration := Int

/-- Go `time.Second`. -/
def Second : Duration := 1000000000

/-- The two fields of `ctrl.Result` (controller-runtime). -/
structure Result where
  Requeue : Bool
  RequeueAfter : Duration
  deriving DecidableEq, Repr

/-- A non-nil Go `error` value; a nil error is `Option.none`. -/
abbrev Error := String

/-- The handler type `func(interface{}) (ctrl.Result, error)`.  The handler is
supplied by the caller; it is taken as a function of the job alone, which does
not touch the queue of the pool. -/
abbrev WorkerFunc (K : Type) := K → Result × Option Error

/-- One observable call made by the worker, in program order. -/
inductive Event (K : Type) where
  | get : Event K
  | workerFunc : K → Event K
  | numRequeues : K → Event K
  | logError : String → Event K
  | logInfo : String → Event K
  | forget : K → Event K
  | addRateLimited : K → Event K
  | addAfter : K → Duration → Event K
  | done : K → Event K
  deriving DecidableEq, Repr

/-- The methods of `workqueue.TypedRateLimitingInterface` over a queue state
`Q`.  `Get` blocks in Go until an item is ready or the queue is shut down: it
answers `none` when it would block for ever in the given state, and otherwise
the pair `(job, quit)` together with the new queue state. -/
structure RateLimitingInterface (Q K : Type) where
  Add : K → Q → Q
  AddAfter : K → Duration → Q → Q
  AddRateLimited : K → Q → Q
  Get : Q → Option ((K × Bool) × Q)
  Done : K → Q → Q
  Forget : K → Q → Q
  NumRequeues : K → Q → Int
  ShutDown : Q → Q

/-- The Go struct `worker`; `workerFunc` is nil until it is set, and the
logger and the context carry no state the methods read. -/
structure worker (Q K : Type) where
  workersStarted : Bool
  workerFunc : Option (WorkerFunc K)
  maxRetriesOnErr : Int
  maxWorkerCount : Int
  queue : Q

/-- How one call of `processNextItem` ends: it returns `cont`, or the call of a
nil `workerFunc` panics. -/
inductive Exit where
  | ret : Bool → Exit
  | nilFuncPanic : Exit
  deriving DecidableEq, Repr

/-- The outcome of one call of `processNextItem`: how it ended, the worker
afterwards, and the calls it made. -/
structure Step (Q K : Type) where
  exit : Exit
  w : worker Q K
  events : List (Event K)

/-! ## Methods of `worker` -/

/-- Go `NewDefaultWorkerPool`, given the freshly created queue. -/
def NewDefaultWorkerPool {Q K : Type} (workerCount maxRequeue : Int) (queue : Q) :
    worker Q K :=
  { workersStarted := false
    workerFunc := none
    maxRetriesOnErr := maxRequeue
    maxWorkerCount := workerCount
    queue := queue }

/-- Go `SetWorkerFunc`. -/
def SetWorkerFunc {Q K : Type} (w : worker Q K) (workerFunc : WorkerFunc K) :
    worker Q K :=
  { w with workerFunc := some workerFunc }

/-- Go `StartWorkerPool`: the body is `return nil`.  It yields the worker
afterwards, the returned error and the calls made. -/
def StartWorkerPool {Q K : Type} (w : worker Q K) (_workerFunc : WorkerFunc K) :
    worker Q K × Option Error × List (Event K) :=
  (w, none, [])

/-- Go `SubmitJob`: the body is empty. -/
def SubmitJob {Q K : Type} (w : worker Q K) (_job : K) :
    worker Q K × List (Event K) :=
  (w, [])

/-- Go `SubmitJobAfter`: the body is empty. -/
def SubmitJobAfter {Q K : Type} (w : worker Q K) (_job : K) (_submitAfter : Duration) :
    worker Q K × List (Event K) :=
  (w, [])

/-- Lines 77 to 97 of `processNextItem`: the handler call and the routing of
its outcome, on the queue state `q` that `Get` left.  It yields the queue state
and the calls made before the deferred `Done`. -/
def routeOutcome {Q K : Type} (I : RateLimitingInterface Q K) (maxRetriesOnErr : Int)
    (workerFunc : WorkerFunc K) (job : K) (q : Q) : Q × List (Event K) :=
  match workerFunc job with
  | (_, some _) =>
    if I.NumRequeues job q ≥ maxRetriesOnErr then
      (I.Forget job q,
        [.workerFunc job, .numRequeues job, .logError "exceeded maximum retries",
         .forget job])
    else
      (I.AddRateLimited job q,
        [.workerFunc job, .numRequeues job, .numRequeues job, .logError "re-queuing job",
         .addRateLimited job])
  | (result, none) =>
    if result.RequeueAfter > 7 * Second then
      (I.AddAfter job result.RequeueAfter q,
        [.workerFunc job, .logInfo "timed retry", .addAfter job result.RequeueAfter])
    else
      (I.Forget job q,
        [.workerFunc job, .logInfo "completed job successfully", .forget job])

/-- Go `processNextItem`.  `none` means that `Get` never returns. -/
def processNextItem {Q K : Type} (I : RateLimitingInterface Q K) (w : worker Q K) :
    Option (Step Q K) :=
  match I.Get w.queue with
  | none => none
  | some ((job, quit), q1) =>
    if quit then
      some ⟨.ret false, { w with queue := q1 }, [.get]⟩
    else
      match w.workerFunc with
      | none =>
        some ⟨.nilFuncPanic, { w with queue := I.Done job q1 }, [.get, .done job]⟩
      | some f =>
        let r := routeOutcome I w.maxRetriesOnErr f job q1
        some ⟨.ret true, { w with queue := I.Done job r.1 }, .get :: r.2 ++ [.done job]⟩

/-- How a run of `runWorker` ends. -/
inductive LoopExit where
  | stopped : LoopExit
  | blocked : LoopExit
  | panicked : LoopExit
  | outOfFuel : LoopExit
  deriving DecidableEq, Repr

/-- Go `runWorker`: `for w.processNextItem() {}`, with a bound on the number
of iterations.  It yields how the loop ended, the worker afterwards and all the
calls made. -/
def runWorker {Q K : Type} (I : RateLimitingInterface Q K) :
    Nat → worker Q K → LoopExit × worker Q K × List (Event K)
  | 0, w => (.outOfFuel, w, [])
  | fuel + 1, w =>
    match processNextItem I w with
    | none => (.blocked, w, [])
    | some s =>
      match s.exit with
      | .ret true =>
        let r := runWorker I fuel s.w
        (r.1, r.2.1, s.events ++ r.2.2)
      | .ret false => (.stopped, s.w, s.events)
      | .nilFuncPanic => (.panicked, s.w, s.events)

/-! ## The job queue of the specification

The queue implementation is the `client-go` library and is not part of the
repository; the specification describes its contract in section 4.1.  The
model below follows that description, with a logical clock. -/

/-- Modelled from the spec: the rate limiter of section 4.1, which is not in
the repository: `delay = min(baseDelay * 2^failureCount, maxDelay)`. -/
def delayFor (baseDelay maxDelay failureCount : Nat) : Nat :=
  min (baseDelay * 2 ^ failureCount) maxDelay

/-- Modelled from the spec: the JobQueue state of sections 3 and 4.1, which is
not in the repository: the ready set in dequeue order, the processing set, the
keys with a pending re-add, the delayed set as pairs of key and deadline in
ascending deadline order, the failure counter of every key, the clock, the
shutdown flag and the two backoff bounds. -/
structure JobQueue (K : Type) where
  ready : List K
  processing : List K
  dirty : List K
  delayed : List (K × Int)
  failures : K → Nat
  now : Int
  shutdown : Bool
  baseDelay : Nat
  maxDelay : Nat

namespace JobQueue

variable {K : Type} [DecidableEq K]

/-- Modelled from the spec: a new JobQueue (not in the repository): nothing
queued, all counters zero, clock at zero. -/
def new (baseDelay maxDelay : Nat) : JobQueue K :=
  { ready := []
    processing := []
    dirty := []
    delayed := []
    failures := fun _ => 0
    now := 0
    shutdown := false
    baseDelay := baseDelay
    maxDelay := maxDelay }

/-- Modelled from the spec: `Add(key)` of section 4.1 (not in the repository):
admits the key to the ready set; if the key is processing it marks a pending
re-add instead; no-op if the key is already ready, and after shutdown. -/
def Add (key : K) (q : JobQueue K) : JobQueue K :=
  if q.shutdown then q
  else if key ∈ q.processing then
    if key ∈ q.dirty then q else { q with dirty := q.dirty ++ [key] }
  else if key ∈ q.ready then q
  else { q with ready := q.ready ++ [key] }

/-- Modelled from the spec: the time-ordered structure of the DelayScheduler of
section 4.1 (not in the repository): insertion that keeps the deadlines
ascending. -/
def insertByDeadline (e : K × Int) : List (K × Int) → List (K × Int)
  | [] => [e]
  | x :: xs => if e.2 < x.2 then e :: x :: xs else x :: insertByDeadline e xs

/-- Modelled from the spec: `AddAfter(key, delay)` of section 4.1 (not in the
repository): schedules the key for ready-admission at `now + delay`, unless it
is already scheduled with an equal or earlier deadline; no-op after
shutdown. -/
def AddAfter (key : K) (delay : Duration) (q : JobQueue K) : JobQueue K :=
  if q.shutdown then q
  else if q.delayed.any (fun e => decide (e.1 = key) && decide (e.2 ≤ q.now + delay)) then q
  else
    { q with
      delayed :=
        insertByDeadline (key, q.now + delay)
          (q.delayed.filter (fun e => !decide (e.1 = key))) }

/-- Modelled from the spec: `AddRateLimited(key)` of section 4.1 (not in the
repository): increments the failure counter of the key, computes the delay of
the rate limiter from the incremented counter and behaves like `AddAfter` with
that delay; no-op after shutdown. -/
def AddRateLimited (key : K) (q : JobQueue K) : JobQueue K :=
  if q.shutdown then q
  else
    AddAfter key (delayFor q.baseDelay q.maxDelay (q.failures key + 1))
      { q with failures := Function.update q.failures key (q.failures key + 1) }

/-- Modelled from the spec: `Get()` of section 4.1 (not in the repository):
moves the first ready key to the processing set and returns it; with no ready
key it reports shutdown if the queue is shut down and blocks otherwise. -/
def Get [Inhabited K] (q : JobQueue K) : Option ((K × Bool) × JobQueue K) :=
  match q.ready with
  | key :: rest => some ((key, false), { q with ready := rest, processing := key :: q.processing })
  | [] => if q.shutdown then some ((default, true), q) else none

/-- Modelled from the spec: `Done(key)` of section 4.1 (not in the
repository): the key is no longer processing; if a re-add was requested while
it was processing, it moves back to the ready set. -/
def Done (key : K) (q : JobQueue K) : JobQueue K :=
  if key ∈ q.dirty then
    { q with
      processing := q.processing.filter (fun x => !decide (x = key))
      dirty := q.dirty.filter (fun x => !decide (x = key))
      ready := q.ready ++ [key] }
  else
    { q with processing := q.processing.filter (fun x => !decide (x = key)) }

/-- Modelled from the spec: `Forget(key)` of section 4.1 (not in the
repository): resets the failure counter of the key to zero. -/
def Forget (key : K) (q : JobQueue K) : JobQueue K :=
  { q with failures := Function.update q.failures key 0 }

/-- Modelled from the spec: `NumRequeues(key)` of section 4.1 (not in the
repository): the current failure counter of the key. -/
def NumRequeues (key : K) (q : JobQueue K) : Int :=
  (q.failures key : Int)

/-- Modelled from the spec: `ShutDown()` of section 4.1 (not in the
repository): marks the queue closed. -/
def ShutDown (q : JobQueue K) : JobQueue K :=
  { q with shutdown := true }

/-- Modelled from the spec: the background step of the DelayScheduler of
section 4.1 (not in the repository): the entries whose deadline has elapsed
are admitted to the ready set, in ascending deadline order. -/
def release (q : JobQueue K) : JobQueue K :=
  (q.delayed.takeWhile (fun e => decide (e.2 ≤ q.now))).foldl (fun acc e => Add e.1 acc)
    { q with delayed := q.delayed.dropWhile (fun e => decide (e.2 ≤ q.now)) }

/-- Modelled from the spec: the passing of `dt` nanoseconds on the clock of the
DelayScheduler (not in the repository), followed by its background step. -/
def advance (dt : Nat) (q : JobQueue K) : JobQueue K :=
  release { q with now := q.now + (dt : Int) }

end JobQueue

/-- Modelled from the spec: the JobQueue of section 4.1 (not in the
repository) as an implementation of the queue interface. -/
def jobQueue (K : Type) [DecidableEq K] [Inhabited K] :
    RateLimitingInterface (JobQueue K) K :=
  { Add := JobQueue.Add
    AddAfter := JobQueue.AddAfter
    AddRateLimited := JobQueue.AddRateLimited
    Get := JobQueue.Get
    Done := JobQueue.Done
    Forget := JobQueue.Forget
    NumRequeues := JobQueue.NumRequeues
    ShutDown := JobQueue.ShutDown }

/-! ## A key that keeps failing -/

/-- The pool of the retry scenario: `NewDefaultWorkerPool` with one worker and
the retry ceiling `maxRetries` on a new queue, the handler `h` registered, and
the key `k` added once to the queue. -/
def singleKeyPool {K : Type} [DecidableEq K] (maxRetries : Int) (baseDelay maxDelay : Nat)
    (h : WorkerFunc K) (k : K) : worker (JobQueue K) K :=
  SetWorkerFunc
    (NewDefaultWorkerPool 1 maxRetries (JobQueue.Add k (JobQueue.new baseDelay maxDelay))) h

/-- The worker between two attempts: the clock moves by `maxDelay`, so every
backoff delay has elapsed. -/
def waitBackoff {K : Type} [DecidableEq K] (w : worker (JobQueue K) K) :
    worker (JobQueue K) K :=
  { w with queue := JobQueue.advance w.queue.maxDelay w.queue }

/-- The worker after `n` calls of `processNextItem` on `singleKeyPool`, each
followed by `waitBackoff`; `none` if one of the calls blocks. -/
def afterAttempts {K : Type} [DecidableEq K] [Inhabited K] (maxRetries : Int)
    (baseDelay maxDelay : Nat) (h : WorkerFunc K) (k : K) :
    Nat → Option (worker (JobQueue K) K)
  | 0 => some (singleKeyPool maxRetries baseDelay maxDelay h k)
  | n + 1 =>
    (afterAttempts maxRetries baseDelay maxDelay h k n).bind fun w =>
      (processNextItem (jobQueue K) w).map fun s => waitBackoff s.w

/-- The attempt number `n + 1` of the scenario: the call of `processNextItem`
made after `n` earlier ones. -/
def attemptAfter {K : Type} [DecidableEq K] [Inhabited K] (maxRetries : Int)
    (baseDelay maxDelay : Nat) (h : WorkerFunc K) (k : K) (n : Nat) :
    Option (Step (JobQueue K) K) :=
  (afterAttempts maxRetries baseDelay maxDelay h k n).bind (processNextItem (jobQueue K))

/-- A handler that fails on every job. -/
def alwaysFail {K : Type} : WorkerFunc K :=
  fun _ => (⟨false, 0⟩, some "failure")

/-- A handler that succeeds on every job, with no requeue delay. -/
def alwaysSucceed {K : Type} : WorkerFunc K :=
  fun _ => (⟨false, 0⟩, none)

/-- A handler that succeeds on every job and asks for a requeue after `d`. -/
def succeedWithDelay {K : Type} (d : Duration) : WorkerFunc K :=
  fun _ => (⟨false, d⟩, none)

/-- The pool of the examples: ceiling 3, backoff bounds 1000 and 16000, the
key `"a"` added once, and the handler `h`. -/
def examplePool (h : WorkerFunc String) : worker (JobQueue String) String :=
  singleKeyPool 3 1000 16000 h "a"

/-- The queue of `examplePool` once `Get` has handed out `"a"`. -/
def exampleDequeued : JobQueue String :=
  { (JobQueue.Add "a" (JobQueue.new 1000 16000)) with ready := [], processing := ["a"] }

/-- The pool of the examples with its queue shut down while `"a"` is ready. -/
def exampleShutPool (h : WorkerFunc String) : worker (JobQueue String) String :=
  { examplePool h with queue := JobQueue.ShutDown (examplePool h).queue }

/-! ## Contracts of the queue interface -/

/-- The part of the queue contract that concerns the failure counter: `Get`,
`Done` and `AddAfter` leave every counter as it is, and `Forget` resets the
counter of its key to zero. -/
structure CounterLaws {Q K : Type} (I : RateLimitingInterface Q K) : Prop where
  get_keeps : ∀ q r q1, I.Get q = some (r, q1) → ∀ k, I.NumRequeues k q1 = I.NumRequeues k q
  done_keeps : ∀ j k q, I.NumRequeues k (I.Done j q) = I.NumRequeues k q
  addAfter_keeps : ∀ j d k q, I.NumRequeues k (I.AddAfter j d q) = I.NumRequeues k q
  forget_resets : ∀ k q, I.NumRequeues k (I.Forget k q) = 0

/-- The part of the queue contract that concerns the processing set, observed
through `inProc`: a key that `Get` hands out is processing, `Forget`,
`AddRateLimited` and `AddAfter` leave it processing, and `Done` ends it. -/
structure ProcessingLaws {Q K : Type} (I : RateLimitingInterface Q K)
    (inProc : K → Q → Prop) : Prop where
  get_marks : ∀ q job q1, I.Get q = some ((job, false), q1) → inProc job q1
  forget_keeps : ∀ j k q, inProc k q → inProc k (I.Forget j q)
  addRateLimited_keeps : ∀ j k q, inProc k q → inProc k (I.AddRateLimited j q)
  addAfter_keeps : ∀ j d k q, inProc k q → inProc k (I.AddAfter j d q)
  done_clears : ∀ k q, ¬ inProc k (I.Done k q)

/-- The calls of one invocation that requeues the job after an error. -/
def requeueTrace {K : Type} (job : K) : List (Event K) :=
  [.get, .workerFunc job, .numRequeues job, .numRequeues job, .logError "re-queuing job",
   .addRateLimited job, .done job]

/-- The calls of one invocation that drops the job after an error. -/
def dropTrace {K : Type} (job : K) : List (Event K) :=
  [.get, .workerFunc job, .numRequeues job, .logError "exceeded maximum retries",
   .forget job, .done job]

/-- The calls of one invocation that completes the job. -/
def successTrace {K : Type} (job : K) : List (Event K) :=
  [.get, .workerFunc job, .logInfo "completed job successfully", .forget job, .done job]

/-- The calls of one invocation that requeues the job after the delay `d`
asked for by the handler. -/
def timedRetryTrace {K : Type} (job : K) (d : Duration) : List (Event K) :=
  [.get, .workerFunc job, .logInfo "timed retry", .addAfter job d, .done job]

/-- The state of the retry scenario between two attempts, after `n` failures:
the handler and the ceiling are those of the pool, the key is the one ready
key, nothing is processing, marked or delayed, the failure counter of the key
is `n`, and the queue is open. -/
def Waiting {K : Type} (maxRetries : Int) (baseDelay maxDelay : Nat) (h : WorkerFunc K)
    (k : K) (n : Nat) (w : worker (JobQueue K) K) : Prop :=
  w.workerFunc = some h ∧ w.maxRetriesOnErr = maxRetries ∧ w.queue.ready = [k] ∧
    w.queue.processing = [] ∧ w.queue.dirty = [] ∧ w.queue.delayed = [] ∧
    w.queue.failures k = n ∧ w.queue.shutdown = false ∧
    w.queue.baseDelay = baseDelay ∧ w.queue.maxDelay = maxDelay

/-! ## Results on `processNextItem` -/

section Generic

variable {Q K : Type}

theorem processNextItem_of_item (I : RateLimitingInterface Q K) (w : worker Q K)
    (h : WorkerFunc K) (job : K) (q1 : Q)
    (hGet : I.Get w.queue = some ((job, false), q1)) (hFunc : w.workerFunc = some h) :
    processNextItem I w =
      some ⟨.ret true, { w with queue := I.Done job (routeOutcome I w.maxRetriesOnErr h job q1).1 },
        .get :: (routeOutcome I w.maxRetriesOnErr h job q1).2 ++ [.done job]⟩ := by
  simp [processNextItem, hGet, hFunc]

theorem processNextItem_of_quit (I : RateLimitingInterface Q K) (w : worker Q K)
    (job : K) (q1 : Q) (hGet : I.Get w.queue = some ((job, true), q1)) :
    processNextItem I w = some ⟨.ret false, { w with queue := q1 }, [.get]⟩ := by
  simp [processNextItem, hGet]

theorem routeOutcome_error_below (I : RateLimitingInterface Q K) (m : Int) (h : WorkerFunc K)
    (job : K) (q : Q) (result : Result) (err : Error) (hErr : h job = (result, some err))
    (hlt : I.NumRequeues job q < m) :
    routeOutcome I m h job q =
      (I.AddRateLimited job q,
        [.workerFunc job, .numRequeues job, .numRequeues job, .logError "re-queuing job",
         .addRateLimited job]) := by
  simp [routeOutcome, hErr, not_le.mpr hlt]

theorem routeOutcome_error_ceiling (I : RateLimitingInterface Q K) (m : Int) (h : WorkerFunc K)
    (job : K) (q : Q) (result : Result) (err : Error) (hErr : h job = (result, some err))
    (hge : m ≤ I.NumRequeues job q) :
    routeOutcome I m h job q =
      (I.Forget job q,
        [.workerFunc job, .numRequeues job, .logError "exceeded maximum retries",
         .forget job]) := by
  simp [routeOutcome, hErr, hge]

theorem routeOutcome_delay (I : RateLimitingInterface Q K) (m : Int) (h : WorkerFunc K)
    (job : K) (q : Q) (result : Result) (hOk : h job = (result, none))
    (hd : 7 * Second < result.RequeueAfter) :
    routeOutcome I m h job q =
      (I.AddAfter job result.RequeueAfter q,
        [.workerFunc job, .logInfo "timed retry", .addAfter job result.RequeueAfter]) := by
  simp [routeOutcome, hOk, hd]

theorem routeOutcome_success (I : RateLimitingInterface Q K) (m : Int) (h : WorkerFunc K)
    (job : K) (q : Q) (result : Result) (hOk : h job = (result, none))
    (hd : result.RequeueAfter ≤ 7 * Second) :
    routeOutcome I m h job q =
      (I.Forget job q,
        [.workerFunc job, .logInfo "completed job successfully", .forget job]) := by
  simp [routeOutcome, hOk, not_lt.mpr hd]

/-- C1: when the handler returns a non-nil error on the dequeued job, whatever
the result beside it, `processNextItem` calls `AddRateLimited(job)` and not
`Forget(job)` exactly when `NumRequeues(job) < maxRetriesOnErr` on the queue
that `Get` left; at or above the ceiling it calls `Forget(job)` and no
`AddRateLimited`; `AddAfter` is never called, and `Done(job)` follows on the
routed queue in both cases. -/
theorem processNextItem_error_routing (I : RateLimitingInterface Q K) (w : worker Q K)
    (h : WorkerFunc K) (job : K) (q1 : Q) (result : Result) (err : Error)
    (hGet : I.Get w.queue = some ((job, false), q1)) (hFunc : w.workerFunc = some h)
    (hErr : h job = (result, some err)) :
    ∃ s, processNextItem I w = some s ∧
      ((Event.addRateLimited job ∈ s.events ∧ Event.forget job ∉ s.events) ↔
        I.NumRequeues job q1 < w.maxRetriesOnErr) ∧
      (I.NumRequeues job q1 < w.maxRetriesOnErr →
        s.events = requeueTrace job ∧ s.w.queue = I.Done job (I.AddRateLimited job q1)) ∧
      (I.NumRequeues job q1 ≥ w.maxRetriesOnErr →
        s.events = dropTrace job ∧ Event.forget job ∈ s.events ∧
        (∀ j, Event.addRateLimited j ∉ s.events) ∧
        s.w.queue = I.Done job (I.Forget job q1)) ∧
      (∀ j d, Event.addAfter j d ∉ s.events) := by
  refine ⟨_, processNextItem_of_item I w h job q1 hGet hFunc, ?_⟩
  by_cases hlt : I.NumRequeues job q1 < w.maxRetriesOnErr
  · rw [routeOutcome_error_below I _ h job q1 result err hErr hlt]
    have hnge : ¬ I.NumRequeues job q1 ≥ w.maxRetriesOnErr := not_le.mpr hlt
    simp [hlt, hnge, requeueTrace]
  · have hge : w.maxRetriesOnErr ≤ I.NumRequeues job q1 := not_lt.mp hlt
    rw [routeOutcome_error_ceiling I _ h job q1 result err hErr hge]
    simp [hlt, hge, dropTrace]

/-- C3: when the handler returns no error and no requeue delay on the dequeued
job, `processNextItem` calls `Forget(job)` and then `Done(job)`, and calls
neither `AddRateLimited` nor `AddAfter`; on a queue that keeps the counter
contract the failure counter of the job is zero afterwards. -/
theorem processNextItem_success (I : RateLimitingInterface Q K) (w : worker Q K)
    (h : WorkerFunc K) (job : K) (q1 : Q) (result : Result)
    (hGet : I.Get w.queue = some ((job, false), q1)) (hFunc : w.workerFunc = some h)
    (hOk : h job = (result, none)) (hNoDelay : result.RequeueAfter = 0)
    (laws : CounterLaws I) :
    ∃ s, processNextItem I w = some s ∧
      s.events = successTrace job ∧
      Event.forget job ∈ s.events ∧ Event.done job ∈ s.events ∧
      (∀ j, Event.addRateLimited j ∉ s.events) ∧
      (∀ j d, Event.addAfter j d ∉ s.events) ∧
      s.w.queue = I.Done job (I.Forget job q1) ∧
      I.NumRequeues job s.w.queue = 0 := by
  refine ⟨_, processNextItem_of_item I w h job q1 hGet hFunc, ?_⟩
  have hd : result.RequeueAfter ≤ 7 * Second := by rw [hNoDelay]; decide
  rw [routeOutcome_success I _ h job q1 result hOk hd]
  simp [successTrace, laws.done_keeps, laws.forget_resets]

/-- C4: when the handler returns no error and the requeue delay `d` on the
dequeued job: if `d > 7s`, `processNextItem` calls `AddAfter(job, d)` with that
`d`, then `Done(job)`, and neither `Forget` nor `AddRateLimited`, and on a
queue that keeps the counter contract the failure counter of the job is the
one before the call; if `d ≤ 7s` the calls and the resulting queue are those of
a handler that returns no delay: `Forget(job)`, `Done(job)`, no `AddAfter`. -/
theorem processNextItem_delay_threshold (I : RateLimitingInterface Q K) (w : worker Q K)
    (h : WorkerFunc K) (job : K) (q1 : Q) (result : Result)
    (hGet : I.Get w.queue = some ((job, false), q1)) (hFunc : w.workerFunc = some h)
    (hOk : h job = (result, none)) (laws : CounterLaws I) :
    ∃ s, processNextItem I w = some s ∧
      (result.RequeueAfter > 7 * Second →
        s.events = timedRetryTrace job result.RequeueAfter ∧
        (∀ j, Event.forget j ∉ s.events) ∧
        (∀ j, Event.addRateLimited j ∉ s.events) ∧
        s.w.queue = I.Done job (I.AddAfter job result.RequeueAfter q1) ∧
        I.NumRequeues job s.w.queue = I.NumRequeues job w.queue) ∧
      (result.RequeueAfter ≤ 7 * Second →
        s.events = successTrace job ∧
        (∀ j d, Event.addAfter j d ∉ s.events) ∧
        s.w.queue = I.Done job (I.Forget job q1) ∧
        ∀ (h0 : WorkerFunc K) (r0 : Result), h0 job = (r0, none) → r0.RequeueAfter = 0 →
          (processNextItem I { w with workerFunc := some h0 }).map
              (fun s0 => (s0.exit, s0.events, s0.w.queue)) =
            some (s.exit, s.events, s.w.queue)) := by
  refine ⟨_, processNextItem_of_item I w h job q1 hGet hFunc, ?_, ?_⟩
  · intro hd
    rw [routeOutcome_delay I _ h job q1 result hOk hd]
    simp [timedRetryTrace, laws.done_keeps, laws.addAfter_keeps,
      laws.get_keeps _ _ _ hGet]
  · intro hd
    rw [routeOutcome_success I _ h job q1 result hOk hd]
    refine ⟨by simp [successTrace], by simp, rfl, ?_⟩
    intro h0 r0 h0Ok h0d
    have hd0 : r0.RequeueAfter ≤ 7 * Second := by rw [h0d]; decide
    rw [processNextItem_of_item I { w with workerFunc := some h0 } h0 job q1 hGet rfl]
    simp [routeOutcome_success I _ h0 job q1 r0 h0Ok hd0]

/-- C9: `processNextItem` returns false exactly when `Get` reports that the
queue is shut down, and then it makes no call but `Get`; for a dequeued job it
returns true whatever the handler returns, so `runWorker` goes on to its next
iteration after every handled job and stops only on an iteration whose `Get`
reports shutdown. -/
theorem processNextItem_cont (I : RateLimitingInterface Q K) (w : worker Q K) :
    (∀ s, processNextItem I w = some s →
      (s.exit = .ret false ↔ ∃ job q1, I.Get w.queue = some ((job, true), q1))) ∧
    (∀ job q1, I.Get w.queue = some ((job, true), q1) →
      processNextItem I w = some ⟨.ret false, { w with queue := q1 }, [.get]⟩) ∧
    (∀ job q1 h, I.Get w.queue = some ((job, false), q1) → w.workerFunc = some h →
      ∃ s, processNextItem I w = some s ∧ s.exit = .ret true ∧
        ∀ fuel, runWorker I (fuel + 1) w =
          ((runWorker I fuel s.w).1, (runWorker I fuel s.w).2.1,
            s.events ++ (runWorker I fuel s.w).2.2)) ∧
    (∀ job q1 fuel, I.Get w.queue = some ((job, true), q1) →
      runWorker I (fuel + 1) w = (.stopped, { w with queue := q1 }, [.get])) ∧
    (∀ fuel w1 evs, runWorker I fuel w = (.stopped, w1, evs) →
      ∃ pre q0 job, evs = pre ++ [.get] ∧ I.Get q0 = some ((job, true), w1.queue)) := by
  refine ⟨?_, ?_, ?_, ?_, ?_⟩
  · intro s hs
    unfold processNextItem at hs
    cases hG : I.Get w.queue with
    | none => simp [hG] at hs
    | some r =>
      obtain ⟨⟨job, quit⟩, q1⟩ := r
      cases quit with
      | true =>
        simp [hG] at hs
        subst hs
        simp
      | false =>
        cases hF : w.workerFunc with
        | none =>
          simp [hG, hF] at hs
          subst hs
          simp
        | some f =>
          simp [hG, hF] at hs
          subst hs
          simp
  · intro job q1 hG
    exact processNextItem_of_quit I w job q1 hG
  · intro job q1 h hG hF
    refine ⟨_, processNextItem_of_item I w h job q1 hG hF, rfl, ?_⟩
    intro fuel
    simp [runWorker, processNextItem_of_item I w h job q1 hG hF]
  · intro job q1 fuel hG
    simp [runWorker, processNextItem_of_quit I w job q1 hG]
  · intro fuel
    induction fuel generalizing w with
    | zero =>
      intro w1 evs hr
      simp [runWorker] at hr
    | succ n ih =>
      intro w1 evs hr
      unfold runWorker at hr
      cases hP : processNextItem I w with
      | none => simp [hP] at hr
      | some s =>
        cases hE : s.exit with
        | nilFuncPanic => simp [hP, hE] at hr
        | ret b =>
          cases b with
          | true =>
            simp only [hP, hE] at hr
            have h1 : (runWorker I n s.w) =
                (.stopped, w1, (runWorker I n s.w).2.2) := by
              have e1 := congrArg Prod.fst hr
              have e2 := congrArg (fun x => x.2.1) hr
              simp at e1 e2
              ext <;> simp [e1, e2]
            obtain ⟨pre, q0, job, hpre, hq⟩ := ih s.w w1 _ h1
            refine ⟨s.events ++ pre, q0, job, ?_, hq⟩
            have e3 := congrArg (fun x => x.2.2) hr
            simp at e3
            rw [← e3, hpre, List.append_assoc]
          | false =>
            simp only [hP, hE] at hr
            have hstop : ∃ job q1, I.Get w.queue = some ((job, true), q1) := by
              unfold processNextItem at hP
              cases hG : I.Get w.queue with
              | none => simp [hG] at hP
              | some r =>
                obtain ⟨⟨job, quit⟩, q1⟩ := r
                cases quit with
                | true => exact ⟨job, q1, rfl⟩
                | false =>
                  cases hF : w.workerFunc with
                  | none =>
                    simp [hG, hF] at hP
                    subst hP
                    simp at hE
                  | some f =>
                    simp [hG, hF] at hP
                    subst hP
                    simp at hE
            obtain ⟨job, q1, hG⟩ := hstop
            rw [processNextItem_of_quit I w job q1 hG] at hP
            simp at hP
            subst hP
            simp at hr
            obtain ⟨hw, hev⟩ := hr
            refine ⟨[], w.queue, job, by simp [← hev], ?_⟩
            rw [← hw]
            exact hG

/-- C10: for a dequeued job and every handler outcome, `Done(job)` is called
once, on the job that `Get` returned, as the last call of the invocation,
after the one routing call (`Forget`, `AddRateLimited` or `AddAfter`) on that
job; on a queue that keeps the processing contract the job is still processing
when the routing call is made and when it has returned, and no longer after
`Done`. -/
theorem processNextItem_done_last (I : RateLimitingInterface Q K) (w : worker Q K)
    (h : WorkerFunc K) (job : K) (q1 : Q) (inProc : K → Q → Prop)
    (hGet : I.Get w.queue = some ((job, false), q1)) (hFunc : w.workerFunc = some h)
    (laws : ProcessingLaws I inProc) :
    ∃ s pre q2, processNextItem I w = some s ∧
      s.events = pre ++ [.done job] ∧
      (∀ j, Event.done j ∉ pre) ∧
      (Event.forget job ∈ pre ∨ Event.addRateLimited job ∈ pre ∨
        ∃ d, Event.addAfter job d ∈ pre) ∧
      (q2 = I.Forget job q1 ∨ q2 = I.AddRateLimited job q1 ∨
        ∃ d, q2 = I.AddAfter job d q1) ∧
      s.w.queue = I.Done job q2 ∧
      inProc job q1 ∧ inProc job q2 ∧ ¬ inProc job s.w.queue := by
  have hp := laws.get_marks _ _ _ hGet
  have key : ∀ r : Q × List (Event K),
      routeOutcome I w.maxRetriesOnErr h job q1 = r →
      (∀ j, Event.done j ∉ r.2) →
      (Event.forget job ∈ r.2 ∨ Event.addRateLimited job ∈ r.2 ∨
        ∃ d, Event.addAfter job d ∈ r.2) →
      (r.1 = I.Forget job q1 ∨ r.1 = I.AddRateLimited job q1 ∨
        ∃ d, r.1 = I.AddAfter job d q1) →
      inProc job r.1 →
      ∃ s pre q2, processNextItem I w = some s ∧
        s.events = pre ++ [.done job] ∧
        (∀ j, Event.done j ∉ pre) ∧
        (Event.forget job ∈ pre ∨ Event.addRateLimited job ∈ pre ∨
          ∃ d, Event.addAfter job d ∈ pre) ∧
        (q2 = I.Forget job q1 ∨ q2 = I.AddRateLimited job q1 ∨
          ∃ d, q2 = I.AddAfter job d q1) ∧
        s.w.queue = I.Done job q2 ∧
        inProc job q1 ∧ inProc job q2 ∧ ¬ inProc job s.w.queue := by
    intro r hr h1 h2 h3 h4
    refine ⟨_, .get :: r.2, r.1, processNextItem_of_item I w h job q1 hGet hFunc,
      by simp [hr], ?_, ?_, h3, by simp [hr], hp, h4, ?_⟩
    · intro j hj
      simp at hj
      exact h1 j hj
    · rcases h2 with h2 | h2 | ⟨d, h2⟩
      · exact Or.inl (List.mem_cons_of_mem _ h2)
      · exact Or.inr (Or.inl (List.mem_cons_of_mem _ h2))
      · exact Or.inr (Or.inr ⟨d, List.mem_cons_of_mem _ h2⟩)
    · rw [hr]
      exact laws.done_clears _ _
  rcases hh : h job with ⟨result, _ | err⟩
  · by_cases hd : result.RequeueAfter > 7 * Second
    · exact key _ (routeOutcome_delay I _ h job q1 result hh hd) (by simp) (by simp)
        (Or.inr (Or.inr ⟨_, rfl⟩)) (laws.addAfter_keeps _ _ _ _ hp)
    · exact key _ (routeOutcome_success I _ h job q1 result hh (not_lt.mp hd)) (by simp)
        (by simp) (Or.inl rfl) (laws.forget_keeps _ _ _ hp)
  · by_cases hc : I.NumRequeues job q1 < w.maxRetriesOnErr
    · exact key _ (routeOutcome_error_below I _ h job q1 result err hh hc) (by simp)
        (by simp) (Or.inr (Or.inl rfl)) (laws.addRateLimited_keeps _ _ _ hp)
    · exact key _ (routeOutcome_error_ceiling I _ h job q1 result err hh (not_lt.mp hc))
        (by simp) (by simp) (Or.inl rfl) (laws.forget_keeps _ _ _ hp)

end Generic

/-! ## The job queue of the specification keeps the contracts -/


theorem waiting_singleKeyPool {K : Type} [DecidableEq K] (maxRetries : Int)
    (baseDelay maxDelay : Nat) (h : WorkerFunc K)
    (k : K) : Waiting maxRetries baseDelay maxDelay h k 0
      (singleKeyPool maxRetries baseDelay maxDelay h k) := by
  simp [Waiting, singleKeyPool, SetWorkerFunc, NewDefaultWorkerPool, JobQueue.Add, JobQueue.new]

section Model

variable {K : Type} [DecidableEq K] [Inhabited K]

theorem jobQueue_counterLaws : CounterLaws (jobQueue K) where
  get_keeps := by
    intro q r q1 hG k
    simp only [jobQueue, JobQueue.Get] at hG
    cases hr : q.ready with
    | nil =>
      by_cases hs : q.shutdown <;> simp [hr, hs] at hG
      rw [← hG.2]
    | cons key rest =>
      simp [hr] at hG
      rw [← hG.2]
      rfl
  done_keeps := by
    intro j k q
    simp only [jobQueue, JobQueue.Done, JobQueue.NumRequeues]
    split <;> rfl
  addAfter_keeps := by
    intro j d k q
    simp only [jobQueue, JobQueue.AddAfter, JobQueue.NumRequeues]
    split
    · rfl
    · split <;> rfl
  forget_resets := by
    intro k q
    simp [jobQueue, JobQueue.Forget, JobQueue.NumRequeues]

theorem jobQueue_processingLaws :
    ProcessingLaws (jobQueue K) (fun k q => k ∈ q.processing) where
  get_marks := by
    intro q job q1 hG
    simp only [jobQueue, JobQueue.Get] at hG
    cases hr : q.ready with
    | nil => by_cases hs : q.shutdown <;> simp [hr, hs] at hG
    | cons key rest =>
      simp [hr] at hG
      rw [← hG.2, hG.1]
      simp
  forget_keeps := by
    intro j k q hk
    exact hk
  addRateLimited_keeps := by
    intro j k q hk
    simp only [jobQueue, JobQueue.AddRateLimited, JobQueue.AddAfter]
    split
    · exact hk
    · split <;> exact hk
  addAfter_keeps := by
    intro j d k q hk
    simp only [jobQueue, JobQueue.AddAfter]
    split
    · exact hk
    · split <;> exact hk
  done_clears := by
    intro k q
    simp only [jobQueue, JobQueue.Done]
    split <;> simp

theorem delayFor_le_max (baseDelay maxDelay n : Nat) :
    delayFor baseDelay maxDelay n ≤ maxDelay :=
  min_le_right _ _

theorem delayFor_mono (baseDelay maxDelay : Nat) {m n : Nat} (hmn : m ≤ n) :
    delayFor baseDelay maxDelay m ≤ delayFor baseDelay maxDelay n := by
  unfold delayFor
  exact min_le_min_right _ (Nat.mul_le_mul_left _ (Nat.pow_le_pow_right (by decide) hmn))

theorem waiting_get (maxRetries : Int) (baseDelay maxDelay : Nat) (h : WorkerFunc K)
    (k : K) (n : Nat) (w : worker (JobQueue K) K)
    (hw : Waiting maxRetries baseDelay maxDelay h k n w) :
    (jobQueue K).Get w.queue =
      some ((k, false), { w.queue with ready := [], processing := [k] }) := by
  obtain ⟨-, -, hr, hp, -⟩ := hw
  simp [jobQueue, JobQueue.Get, hr, hp]

/-- One failed attempt below the ceiling, in the retry scenario. -/
theorem waiting_requeue (maxRetries : Int) (baseDelay maxDelay : Nat) (h : WorkerFunc K)
    (hfail : ∀ j, ∃ r e, h j = (r, some e))
    (k : K) (n : Nat) (w : worker (JobQueue K) K)
    (hw : Waiting maxRetries baseDelay maxDelay h k n w) (hlt : (n : Int) < maxRetries) :
    ∃ s, processNextItem (jobQueue K) w = some s ∧ s.exit = .ret true ∧
      s.events = requeueTrace k ∧
      s.w.queue.ready = [] ∧
      s.w.queue.delayed = [(k, s.w.queue.now + (delayFor baseDelay maxDelay (n + 1) : Nat))] ∧
      (jobQueue K).NumRequeues k s.w.queue = ((n + 1 : Nat) : Int) ∧
      Waiting maxRetries baseDelay maxDelay h k (n + 1) (waitBackoff s.w) := by
  have hG := waiting_get maxRetries baseDelay maxDelay h k n w hw
  obtain ⟨hf, hm, hr, hp, hd, hdl, hc, hs, hb, hx⟩ := hw
  obtain ⟨r, e, he⟩ := hfail k
  have hN : (jobQueue K).NumRequeues k { w.queue with ready := [], processing := [k] } <
      w.maxRetriesOnErr := by
    simp [jobQueue, JobQueue.NumRequeues, hc, hm, hlt]
  have hle := delayFor_le_max baseDelay maxDelay (n + 1)
  refine ⟨_, processNextItem_of_item _ w h k _ hG hf, rfl, ?_⟩
  rw [routeOutcome_error_below _ _ h k _ r e he hN]
  refine ⟨rfl, ?_, ?_, ?_, ?_⟩
  · simp [jobQueue, JobQueue.Done, JobQueue.AddRateLimited, JobQueue.AddAfter, hs, hdl, hd]
  · simp [jobQueue, JobQueue.Done, JobQueue.AddRateLimited, JobQueue.AddAfter, hs, hdl, hd,
      JobQueue.insertByDeadline, hc, hb, hx]
  · simp [jobQueue, JobQueue.Done, JobQueue.AddRateLimited, JobQueue.AddAfter, hs, hdl, hd,
      JobQueue.NumRequeues, hc]
  · simp [Waiting, waitBackoff, JobQueue.advance, JobQueue.release, jobQueue, JobQueue.Done,
      JobQueue.AddRateLimited, JobQueue.AddAfter, hs, hdl, hd, JobQueue.insertByDeadline,
      hc, hb, hx, hf, hm, hle, JobQueue.Add]

/-- The failed attempt at the ceiling, in the retry scenario: the key is
dropped and the queue is left empty, so that `Get` blocks however long the
clock runs. -/
theorem waiting_drop (maxRetries : Int) (baseDelay maxDelay : Nat) (h : WorkerFunc K)
    (hfail : ∀ j, ∃ r e, h j = (r, some e))
    (k : K) (n : Nat) (w : worker (JobQueue K) K)
    (hw : Waiting maxRetries baseDelay maxDelay h k n w) (hge : maxRetries ≤ (n : Int)) :
    ∃ s, processNextItem (jobQueue K) w = some s ∧ s.exit = .ret true ∧
      s.events = dropTrace k ∧
      s.w.queue.ready = [] ∧ s.w.queue.delayed = [] ∧ s.w.queue.processing = [] ∧
      s.w.queue.dirty = [] ∧
      (jobQueue K).NumRequeues k s.w.queue = 0 ∧
      ∀ dt, processNextItem (jobQueue K)
        { s.w with queue := JobQueue.advance dt s.w.queue } = none := by
  have hG := waiting_get maxRetries baseDelay maxDelay h k n w hw
  obtain ⟨hf, hm, hr, hp, hd, hdl, hc, hs, hb, hx⟩ := hw
  obtain ⟨r, e, he⟩ := hfail k
  have hN : w.maxRetriesOnErr ≤
      (jobQueue K).NumRequeues k { w.queue with ready := [], processing := [k] } := by
    simp [jobQueue, JobQueue.NumRequeues, hc, hm, hge]
  refine ⟨_, processNextItem_of_item _ w h k _ hG hf, rfl, ?_⟩
  rw [routeOutcome_error_ceiling _ _ h k _ r e he hN]
  refine ⟨rfl, ?_, ?_, ?_, ?_, ?_, ?_⟩
  · simp [jobQueue, JobQueue.Done, JobQueue.Forget, hd]
  · simp [jobQueue, JobQueue.Done, JobQueue.Forget, hd, hdl]
  · simp [jobQueue, JobQueue.Done, JobQueue.Forget, hd]
  · simp [jobQueue, JobQueue.Done, JobQueue.Forget, hd]
  · simp [jobQueue, JobQueue.Done, JobQueue.Forget, hd, JobQueue.NumRequeues]
  · intro dt
    simp [processNextItem, jobQueue, JobQueue.Done, JobQueue.Forget, hd, hdl, hs,
      JobQueue.advance, JobQueue.release, JobQueue.Get]

theorem afterAttempts_waiting (maxRetries : Int) (baseDelay maxDelay : Nat)
    (h : WorkerFunc K) (hfail : ∀ j, ∃ r e, h j = (r, some e)) (k : K) (n : Nat)
    (hn : (n : Int) ≤ maxRetries) :
    ∃ w, afterAttempts maxRetries baseDelay maxDelay h k n = some w ∧
      Waiting maxRetries baseDelay maxDelay h k n w := by
  induction n with
  | zero => exact ⟨_, rfl, waiting_singleKeyPool maxRetries baseDelay maxDelay h k⟩
  | succ n ih =>
    have hlt : (n : Int) < maxRetries := by push_cast at hn; omega
    obtain ⟨w, hw, hW⟩ := ih (le_of_lt hlt)
    obtain ⟨s, hs, -, -, -, -, -, hW1⟩ :=
      waiting_requeue maxRetries baseDelay maxDelay h hfail k n w hW hlt
    exact ⟨waitBackoff s.w, by simp [afterAttempts, hw, hs], hW1⟩

/-- The attempts below the ceiling of the retry scenario. -/
theorem attemptAfter_requeue (maxRetries : Int) (baseDelay maxDelay : Nat)
    (h : WorkerFunc K) (hfail : ∀ j, ∃ r e, h j = (r, some e)) (k : K) (n : Nat)
    (hn : (n : Int) < maxRetries) :
    ∃ s, attemptAfter maxRetries baseDelay maxDelay h k n = some s ∧ s.exit = .ret true ∧
      s.events = requeueTrace k ∧
      s.w.queue.ready = [] ∧
      s.w.queue.delayed = [(k, s.w.queue.now + (delayFor baseDelay maxDelay (n + 1) : Nat))] ∧
      (jobQueue K).NumRequeues k s.w.queue = ((n + 1 : Nat) : Int) := by
  obtain ⟨w, hw, hW⟩ :=
    afterAttempts_waiting maxRetries baseDelay maxDelay h hfail k n (le_of_lt hn)
  obtain ⟨s, hs, h1, h2, h3, h4, h5, -⟩ :=
    waiting_requeue maxRetries baseDelay maxDelay h hfail k n w hW hn
  exact ⟨s, by simp [attemptAfter, hw, hs], h1, h2, h3, h4, h5⟩

/-- The attempt at the ceiling of the retry scenario, and the one after it. -/
theorem attemptAfter_drop (M : Nat) (baseDelay maxDelay : Nat)
    (h : WorkerFunc K) (hfail : ∀ j, ∃ r e, h j = (r, some e)) (k : K) :
    (∃ s, attemptAfter (M : Int) baseDelay maxDelay h k M = some s ∧ s.exit = .ret true ∧
      s.events = dropTrace k ∧
      s.w.queue.ready = [] ∧ s.w.queue.delayed = [] ∧ s.w.queue.processing = [] ∧
      s.w.queue.dirty = [] ∧
      (jobQueue K).NumRequeues k s.w.queue = 0 ∧
      ∀ dt, processNextItem (jobQueue K)
        { s.w with queue := JobQueue.advance dt s.w.queue } = none) ∧
    attemptAfter (M : Int) baseDelay maxDelay h k (M + 1) = none := by
  obtain ⟨w, hw, hW⟩ :=
    afterAttempts_waiting (M : Int) baseDelay maxDelay h hfail k M (le_refl _)
  obtain ⟨s, hs, h1, h2, h3, h4, h5, h6, h7, h8⟩ :=
    waiting_drop (M : Int) baseDelay maxDelay h hfail k M w hW (le_refl _)
  refine ⟨⟨s, by simp [attemptAfter, hw, hs], h1, h2, h3, h4, h5, h6, h7, h8⟩, ?_⟩
  have h9 := h8 s.w.queue.maxDelay
  simp [attemptAfter, afterAttempts, hw, hs, waitBackoff, h9]

theorem alwaysFail_fails {K : Type} (j : K) :
    ∃ r e, (alwaysFail : WorkerFunc K) j = (r, some e) :=
  ⟨_, _, rfl⟩

theorem examplePool_get (h : WorkerFunc String) :
    (jobQueue String).Get (examplePool h).queue = some (("a", false), exampleDequeued) :=
  waiting_get 3 1000 16000 h "a" 0 (examplePool h) (waiting_singleKeyPool 3 1000 16000 h "a")

/-- C2 (amended): with ceiling `M`, a handler that always fails and a key
added once with a zero failure counter, each of the attempts 1 to `M` requeues
the key through `AddRateLimited` and leaves its counter at the number of the
attempt; the attempt `M + 1` calls `Forget` and not `AddRateLimited`, leaves
the counter at zero and the queue empty, so `Get` blocks however long the clock
runs and there is no attempt `M + 2`. -/
theorem retry_ceiling (M baseDelay maxDelay : Nat) (h : WorkerFunc K)
    (hfail : ∀ j, ∃ r e, h j = (r, some e)) (k : K) :
    (∀ n, n < M →
      ∃ s, attemptAfter (M : Int) baseDelay maxDelay h k n = some s ∧
        s.events = requeueTrace k ∧
        (jobQueue K).NumRequeues k s.w.queue = ((n + 1 : Nat) : Int) ∧
        s.w.queue.delayed =
          [(k, s.w.queue.now + (delayFor baseDelay maxDelay (n + 1) : Nat))]) ∧
    (∃ s, attemptAfter (M : Int) baseDelay maxDelay h k M = some s ∧
      s.events = dropTrace k ∧
      (jobQueue K).NumRequeues k s.w.queue = 0 ∧
      s.w.queue.ready = [] ∧ s.w.queue.delayed = [] ∧ s.w.queue.dirty = [] ∧
      ∀ dt, processNextItem (jobQueue K)
        { s.w with queue := JobQueue.advance dt s.w.queue } = none) ∧
    attemptAfter (M : Int) baseDelay maxDelay h k (M + 1) = none := by
  refine ⟨?_, ?_, (attemptAfter_drop M baseDelay maxDelay h hfail k).2⟩
  · intro n hn
    obtain ⟨s, hs, -, h2, -, h4, h5⟩ :=
      attemptAfter_requeue (M : Int) baseDelay maxDelay h hfail k n (by exact_mod_cast hn)
    exact ⟨s, hs, h2, h5, h4⟩
  · obtain ⟨s, hs, -, h2, h3, h4, -, h6, h7, h8⟩ :=
      (attemptAfter_drop M baseDelay maxDelay h hfail k).1
    exact ⟨s, hs, h2, h7, h3, h4, h6, h8⟩

/-- C5: with ceiling `M > N`, a handler that always fails and a key added once
with a zero failure counter, each of the first `N` attempts calls
`AddRateLimited` once and never `Forget`, the counter of the key is `n` after
the `n`-th failure for every `n ≤ N`, and the delay `min(baseDelay * 2^n,
maxDelay)` scheduled by a failure is at least the delay scheduled by the
failure before it. -/
theorem backoff_monotone (M : Int) (baseDelay maxDelay : Nat) (h : WorkerFunc K)
    (hfail : ∀ j, ∃ r e, h j = (r, some e)) (k : K) (N : Nat) (hN : (N : Int) < M) :
    (∃ w, afterAttempts M baseDelay maxDelay h k N = some w ∧
      (jobQueue K).NumRequeues k w.queue = (N : Int)) ∧
    (∀ n, n < N →
      ∃ s, attemptAfter M baseDelay maxDelay h k n = some s ∧
        s.events = requeueTrace k ∧
        (∀ j, Event.forget j ∉ s.events) ∧
        (jobQueue K).NumRequeues k s.w.queue = ((n + 1 : Nat) : Int) ∧
        s.w.queue.delayed =
          [(k, s.w.queue.now + (delayFor baseDelay maxDelay (n + 1) : Nat))]) ∧
    (∀ n, n + 1 < N →
      ∃ s1 s2 d1 d2, attemptAfter M baseDelay maxDelay h k n = some s1 ∧
        attemptAfter M baseDelay maxDelay h k (n + 1) = some s2 ∧
        s1.w.queue.delayed = [(k, s1.w.queue.now + (d1 : Nat))] ∧
        s2.w.queue.delayed = [(k, s2.w.queue.now + (d2 : Nat))] ∧
        d1 = delayFor baseDelay maxDelay (n + 1) ∧
        d2 = delayFor baseDelay maxDelay (n + 2) ∧
        d1 ≤ d2) := by
  refine ⟨?_, ?_, ?_⟩
  · obtain ⟨w, hw, hW⟩ :=
      afterAttempts_waiting M baseDelay maxDelay h hfail k N (le_of_lt hN)
    refine ⟨w, hw, ?_⟩
    obtain ⟨-, -, -, -, -, -, hc, -⟩ := hW
    simp [jobQueue, JobQueue.NumRequeues, hc]
  · intro n hn
    have hnM : (n : Int) < M := by omega
    obtain ⟨s, hs, -, h2, -, h4, h5⟩ :=
      attemptAfter_requeue M baseDelay maxDelay h hfail k n hnM
    refine ⟨s, hs, h2, ?_, h5, h4⟩
    intro j
    simp [h2, requeueTrace]
  · intro n hn
    have hnM : (n : Int) < M := by omega
    have hnM1 : ((n + 1 : Nat) : Int) < M := by push_cast; omega
    obtain ⟨s1, hs1, -, -, -, h14, -⟩ :=
      attemptAfter_requeue M baseDelay maxDelay h hfail k n hnM
    obtain ⟨s2, hs2, -, -, -, h24, -⟩ :=
      attemptAfter_requeue M baseDelay maxDelay h hfail k (n + 1) hnM1
    exact ⟨s1, s2, _, _, hs1, hs2, h14, h24, rfl, rfl,
      delayFor_mono baseDelay maxDelay (Nat.le_succ _)⟩

end Model

/-! ## The stubs -/

/-- C6 (the code): `SubmitJob` has an empty body: it makes no call on the queue
and leaves the worker as it is.  On a new pool, after `SubmitJob "a"`, `Get`
blocks, while `Add "a"` on the same queue makes `"a"` ready. -/
theorem SubmitJob_noop :
    (∀ (Q K : Type) (w : worker Q K) (job : K), SubmitJob w job = (w, [])) ∧
    (SubmitJob (NewDefaultWorkerPool 1 3 (JobQueue.new 1000 16000 : JobQueue String))
        "a").1.queue.ready = [] ∧
    (jobQueue String).Get
      (SubmitJob (NewDefaultWorkerPool 1 3 (JobQueue.new 1000 16000 : JobQueue String))
        "a").1.queue = none ∧
    ((jobQueue String).Add "a" (JobQueue.new 1000 16000)).ready = ["a"] := by
  refine ⟨fun _ _ _ _ => rfl, rfl, ?_, ?_⟩
  · simp [SubmitJob, NewDefaultWorkerPool, jobQueue, JobQueue.Get, JobQueue.new]
  · simp [jobQueue, JobQueue.Add, JobQueue.new]

/-- C7 (the code): `SubmitJobAfter` has an empty body: it makes no call on the
queue and leaves the worker as it is.  On a new pool, after
`SubmitJobAfter "a" 5s`, nothing is scheduled, while `AddAfter "a" 5s` on the
same queue schedules `"a"` at the clock plus 5s. -/
theorem SubmitJobAfter_noop :
    (∀ (Q K : Type) (w : worker Q K) (job : K) (d : Duration),
      SubmitJobAfter w job d = (w, [])) ∧
    (SubmitJobAfter (NewDefaultWorkerPool 1 3 (JobQueue.new 1000 16000 : JobQueue String))
        "a" (5 * Second)).1.queue.delayed = [] ∧
    ((jobQueue String).AddAfter "a" (5 * Second) (JobQueue.new 1000 16000)).delayed =
      [("a", 5 * Second)] := by
  refine ⟨fun _ _ _ _ _ => rfl, rfl, ?_⟩
  simp [jobQueue, JobQueue.AddAfter, JobQueue.new, JobQueue.insertByDeadline]

/-- C8 (the code): `StartWorkerPool` only returns nil: it does not register
the handler, does not set `workersStarted` and makes no call.  On a new pool
the handler is still nil after it, so `processNextItem` on a ready key ends in
the nil function panic. -/
theorem StartWorkerPool_noop :
    (∀ (Q K : Type) (w : worker Q K) (f : WorkerFunc K),
      StartWorkerPool w f = (w, none, [])) ∧
    (StartWorkerPool
      (NewDefaultWorkerPool 2 3 (JobQueue.Add "a" (JobQueue.new 1000 16000) : JobQueue String))
      (alwaysSucceed : WorkerFunc String)).1.workersStarted = false ∧
    (StartWorkerPool
      (NewDefaultWorkerPool 2 3 (JobQueue.Add "a" (JobQueue.new 1000 16000) : JobQueue String))
      (alwaysSucceed : WorkerFunc String)).1.workerFunc.isNone = true ∧
    (processNextItem (jobQueue String)
      (StartWorkerPool
        (NewDefaultWorkerPool 2 3 (JobQueue.Add "a" (JobQueue.new 1000 16000) : JobQueue String))
        (alwaysSucceed : WorkerFunc String)).1).map (fun s => (s.exit, s.events)) =
      some (.nilFuncPanic, [.get, .done "a"]) := by
  refine ⟨fun _ _ _ _ => rfl, rfl, rfl, ?_⟩
  simp [processNextItem, StartWorkerPool, NewDefaultWorkerPool, jobQueue, JobQueue.Get,
    JobQueue.Add, JobQueue.new]

/-! ## Instances on the example pool -/

theorem exampleShutPool_get (h : WorkerFunc String) :
    (jobQueue String).Get (exampleShutPool h).queue =
      some (("a", false), JobQueue.ShutDown exampleDequeued) := by
  simp [jobQueue, JobQueue.Get, exampleShutPool, examplePool, singleKeyPool, SetWorkerFunc,
    NewDefaultWorkerPool, JobQueue.ShutDown, JobQueue.Add, JobQueue.new, exampleDequeued]

theorem exampleDequeued_numRequeues :
    (jobQueue String).NumRequeues "a" exampleDequeued = 0 := by
  simp [jobQueue, JobQueue.NumRequeues, exampleDequeued, JobQueue.Add, JobQueue.new]

/-- Instance of C1 on the example pool with the failing handler: the counter
of `"a"` is 0, below the ceiling 3, and the call requeues `"a"`. -/
theorem processNextItem_error_routing_witness :
    (jobQueue String).Get (examplePool alwaysFail).queue =
        some (("a", false), exampleDequeued) ∧
      (alwaysFail : WorkerFunc String) "a" = (⟨false, 0⟩, some "failure") ∧
      ∃ s, processNextItem (jobQueue String) (examplePool alwaysFail) = some s ∧
        s.events = requeueTrace "a" ∧
        s.w.queue = (jobQueue String).Done "a"
          ((jobQueue String).AddRateLimited "a" exampleDequeued) := by
  obtain ⟨s, hs, -, h2, -⟩ :=
    processNextItem_error_routing (jobQueue String) (examplePool alwaysFail) alwaysFail "a"
      exampleDequeued ⟨false, 0⟩ "failure" (examplePool_get alwaysFail) rfl rfl
  refine ⟨examplePool_get _, rfl, s, hs, h2 ?_⟩
  rw [exampleDequeued_numRequeues]
  decide

/-- C2 as stated fails for ceiling 3 and key `"a"`: the third failed attempt
does not drop the key, it calls `AddRateLimited` and not `Forget`; and the
handler is invoked on `"a"` a fourth time. -/
theorem retry_ceiling_counterexample :
    (¬ ∃ s, attemptAfter (3 : Int) 1000 16000 alwaysFail "a" 2 = some s ∧
        Event.forget "a" ∈ s.events ∧ Event.addRateLimited "a" ∉ s.events) ∧
      (¬ ∀ s, attemptAfter (3 : Int) 1000 16000 alwaysFail "a" 3 = some s →
        Event.workerFunc "a" ∉ s.events) := by
  constructor
  · rintro ⟨s, hs, hf, -⟩
    obtain ⟨s1, hs1, -, h2, -⟩ :=
      attemptAfter_requeue (3 : Int) 1000 16000 alwaysFail alwaysFail_fails "a" 2 (by decide)
    rw [hs1] at hs
    cases hs
    rw [h2] at hf
    simp [requeueTrace] at hf
  · intro hall
    have hd := (attemptAfter_drop 3 1000 16000 alwaysFail alwaysFail_fails "a").1
    simp only [Nat.cast_ofNat] at hd
    obtain ⟨s, hs, -, h2, -⟩ := hd
    have hno := hall s hs
    rw [h2] at hno
    simp [dropTrace] at hno

/-- Instance of the amended C2 for ceiling 3 and key `"a"` with the failing
handler: the fourth attempt drops the key and a fifth attempt blocks. -/
theorem retry_ceiling_witness :
    (∀ j : String, ∃ r e, (alwaysFail : WorkerFunc String) j = (r, some e)) ∧
      (∃ s, attemptAfter ((3 : Nat) : Int) 1000 16000 alwaysFail "a" 3 = some s ∧
        s.events = dropTrace "a" ∧ (jobQueue String).NumRequeues "a" s.w.queue = 0) ∧
      attemptAfter ((3 : Nat) : Int) 1000 16000 alwaysFail "a" (3 + 1) = none := by
  obtain ⟨-, ⟨s, hs, h2, h3, -⟩, h4⟩ :=
    retry_ceiling 3 1000 16000 alwaysFail alwaysFail_fails "a"
  exact ⟨alwaysFail_fails, ⟨s, hs, h2, h3⟩, h4⟩

/-- Instance of C3 on the example pool with the succeeding handler. -/
theorem processNextItem_success_witness :
    (jobQueue String).Get (examplePool alwaysSucceed).queue =
        some (("a", false), exampleDequeued) ∧
      (alwaysSucceed : WorkerFunc String) "a" = (⟨false, 0⟩, none) ∧
      CounterLaws (jobQueue String) ∧
      ∃ s, processNextItem (jobQueue String) (examplePool alwaysSucceed) = some s ∧
        s.events = successTrace "a" ∧
        (jobQueue String).NumRequeues "a" s.w.queue = 0 := by
  obtain ⟨s, hs, h1, -, -, -, -, -, h7⟩ :=
    processNextItem_success (jobQueue String) (examplePool alwaysSucceed) alwaysSucceed "a"
      exampleDequeued ⟨false, 0⟩ (examplePool_get alwaysSucceed) rfl rfl rfl
      jobQueue_counterLaws
  exact ⟨examplePool_get _, rfl, jobQueue_counterLaws, s, hs, h1, h7⟩

/-- Instance of C4 on the example pool: a handler that asks for 8s is above
the threshold and `"a"` is requeued with `AddAfter "a" 8s`; a handler that asks
for exactly 7s is not, and `"a"` is completed as on a plain success. -/
theorem processNextItem_delay_threshold_witness :
    (jobQueue String).Get (examplePool (succeedWithDelay (8 * Second))).queue =
        some (("a", false), exampleDequeued) ∧
      (succeedWithDelay (8 * Second) : WorkerFunc String) "a" =
        (⟨false, 8 * Second⟩, none) ∧
      8 * Second > 7 * Second ∧
      (∃ s, processNextItem (jobQueue String) (examplePool (succeedWithDelay (8 * Second))) =
          some s ∧
        s.events = timedRetryTrace "a" (8 * Second)) ∧
      7 * Second ≤ 7 * Second ∧
      ∃ s, processNextItem (jobQueue String) (examplePool (succeedWithDelay (7 * Second))) =
          some s ∧
        s.events = successTrace "a" := by
  obtain ⟨s, hs, h1, -⟩ :=
    processNextItem_delay_threshold (jobQueue String)
      (examplePool (succeedWithDelay (8 * Second))) (succeedWithDelay (8 * Second)) "a"
      exampleDequeued ⟨false, 8 * Second⟩ (examplePool_get _) rfl rfl jobQueue_counterLaws
  obtain ⟨s7, hs7, -, h7⟩ :=
    processNextItem_delay_threshold (jobQueue String)
      (examplePool (succeedWithDelay (7 * Second))) (succeedWithDelay (7 * Second)) "a"
      exampleDequeued ⟨false, 7 * Second⟩ (examplePool_get _) rfl rfl jobQueue_counterLaws
  exact ⟨examplePool_get _, rfl, by decide, ⟨s, hs, (h1 (by decide)).1⟩, by decide,
    s7, hs7, (h7 (by decide)).1⟩

/-- Instance of C5 for ceiling 3, two failures and key `"a"`. -/
theorem backoff_monotone_witness :
    ((2 : Nat) : Int) < 3 ∧
      (∃ w, afterAttempts (3 : Int) 1000 16000 alwaysFail "a" 2 = some w ∧
        (jobQueue String).NumRequeues "a" w.queue = ((2 : Nat) : Int)) ∧
      ∃ s1 s2 d1 d2, attemptAfter (3 : Int) 1000 16000 alwaysFail "a" 0 = some s1 ∧
        attemptAfter (3 : Int) 1000 16000 alwaysFail "a" 1 = some s2 ∧
        s1.w.queue.delayed = [("a", s1.w.queue.now + (d1 : Nat))] ∧
        s2.w.queue.delayed = [("a", s2.w.queue.now + (d2 : Nat))] ∧
        d1 = 2000 ∧ d2 = 4000 := by
  obtain ⟨h1, -, h3⟩ :=
    backoff_monotone (3 : Int) 1000 16000 alwaysFail alwaysFail_fails "a" 2 (by decide)
  obtain ⟨s1, s2, d1, d2, e1, e2, e3, e4, e5, e6, -⟩ := h3 0 (by decide)
  refine ⟨by decide, h1, s1, s2, d1, d2, e1, e2, e3, e4, ?_, ?_⟩
  · rw [e5]; decide
  · rw [e6]; decide

/-- Instance of C9 on the example pool shut down while `"a"` is ready, with
the failing handler: the call on `"a"` returns true, and `runWorker` stops on
the next iteration, whose `Get` reports the shutdown. -/
theorem processNextItem_cont_witness :
    (jobQueue String).Get (exampleShutPool alwaysFail).queue =
        some (("a", false), JobQueue.ShutDown exampleDequeued) ∧
      (∃ s, processNextItem (jobQueue String) (exampleShutPool alwaysFail) = some s ∧
        s.exit = .ret true) ∧
      (runWorker (jobQueue String) 2 (exampleShutPool alwaysFail)).1 = .stopped ∧
      (runWorker (jobQueue String) 2 (exampleShutPool alwaysFail)).2.2 =
        requeueTrace "a" ++ [.get] := by
  obtain ⟨s, hs, he, hrun⟩ :=
    (processNextItem_cont (jobQueue String) (exampleShutPool alwaysFail)).2.2.1 "a"
      (JobQueue.ShutDown exampleDequeued) alwaysFail (exampleShutPool_get _) rfl
  refine ⟨exampleShutPool_get _, ⟨s, hs, he⟩, ?_, ?_⟩
  · rfl
  · rfl

/-- Instance of C10 on the example pool with the failing handler. -/
theorem processNextItem_done_last_witness :
    (jobQueue String).Get (examplePool alwaysFail).queue =
        some (("a", false), exampleDequeued) ∧
      ProcessingLaws (jobQueue String) (fun k q => k ∈ q.processing) ∧
      ∃ s pre, processNextItem (jobQueue String) (examplePool alwaysFail) = some s ∧
        s.events = pre ++ [.done "a"] ∧ (∀ j, Event.done j ∉ pre) ∧
        "a" ∈ exampleDequeued.processing ∧ "a" ∉ s.w.queue.processing := by
  obtain ⟨s, pre, q2, hs, h1, h2, -, -, -, h6, -, h8⟩ :=
    processNextItem_done_last (jobQueue String) (examplePool alwaysFail) alwaysFail "a"
      exampleDequeued (fun k q => k ∈ q.processing) (examplePool_get _) rfl
      jobQueue_processingLaws
  exact ⟨examplePool_get _, jobQueue_processingLaws, s, pre, hs, h1, h2, h6, h8⟩

end Workerpool
